import Mathlib

/-!
Verification development for the map-poster generation pipeline
(`create_map_poster.py`).  The Python source is shallowly embedded:
pure fragments become Lean functions, the loop bodies become structural
recursions or folds, Python dicts/strings become association lists and
`List Char`, and Python floats become `ℚ`.  Fallible code (division by
zero) returns `Option`.
-/

namespace MapPoster

/-! ## Themes (`load_theme`, lines 171–201)

A theme is the flat record of named colors the pipeline consumes.  The
embedded default theme is the dict literal returned by `load_theme` when
the theme file is missing. -/

/-- The theme record: all color keys consumed by the pipeline, plus the
display name. -/
structure Theme where
  name : String
  bg : String
  text : String
  gradient_color : String
  water : String
  parks : String
  road_motorway : String
  road_primary : String
  road_secondary : String
  road_tertiary : String
  road_residential : String
  road_default : String
  subway : String
deriving DecidableEq, Repr

/-- The embedded default theme returned by `load_theme` when no theme file
matches the identifier (lines 180–194). -/
def defaultTheme : Theme :=
  { name := "Feature-Based Shading"
    bg := "#FFFFFF"
    text := "#000000"
    gradient_color := "#FFFFFF"
    water := "#C0C0C0"
    parks := "#F0F0F0"
    road_motorway := "#0A0A0A"
    road_primary := "#1A1A1A"
    road_secondary := "#2A2A2A"
    road_tertiary := "#3A3A3A"
    road_residential := "#4A4A4A"
    road_default := "#3A3A3A"
    subway := "#FF5722" }

/-- `load_theme` (lines 171–201).  The themes directory is embedded as an
association list from theme identifier to stored theme; a missing file is
an absent key.  On a miss the embedded default theme is returned. -/
def load_theme (store : List (String × Theme)) (theme_name : String) : Theme :=
  match store.lookup theme_name with
  | none => defaultTheme
  | some t => t

/-! ## Road classification (`get_edge_colors_by_type` lines 268–299,
`get_edge_widths_by_type` lines 301–328)

A road edge's raw `highway` attribute is absent, a scalar string, or a
list of strings.  Both functions normalize it the same way before
classifying. -/

/-- The raw `highway` attribute of a road-network edge. -/
inductive HighwayAttr where
  | absent : HighwayAttr
  | scalar : String → HighwayAttr
  | tagList : List String → HighwayAttr
deriving DecidableEq, Repr

/-- A road-network edge; the only attribute the classifier consumes is
`highway` (`data.get('highway', 'unclassified')`). -/
structure RoadEdge where
  highway : HighwayAttr
deriving DecidableEq, Repr

instance : Inhabited RoadEdge := ⟨⟨HighwayAttr.absent⟩⟩

/-- Tag normalization shared by both classifier loops (lines 277–281 and
309–312): default to `"unclassified"` when absent, take the first element
when the attribute is a list (again `"unclassified"` when the list is
empty). -/
def normalizeHighway : HighwayAttr → String
  | HighwayAttr.absent => "unclassified"
  | HighwayAttr.scalar s => s
  | HighwayAttr.tagList [] => "unclassified"
  | HighwayAttr.tagList (h :: _) => h

/-- The color branch of `get_edge_colors_by_type` (lines 283–295). -/
def edgeColor (theme : Theme) (highway : String) : String :=
  if highway = "motorway" ∨ highway = "motorway_link" then
    theme.road_motorway
  else if highway = "trunk" ∨ highway = "trunk_link" ∨ highway = "primary" ∨
      highway = "primary_link" then
    theme.road_primary
  else if highway = "secondary" ∨ highway = "secondary_link" then
    theme.road_secondary
  else if highway = "tertiary" ∨ highway = "tertiary_link" then
    theme.road_tertiary
  else if highway = "residential" ∨ highway = "living_street" ∨
      highway = "unclassified" then
    theme.road_residential
  else
    theme.road_default

/-- The width branch of `get_edge_widths_by_type` (lines 314–324); the
final `else` (width 0.4) covers residential-tier tags and everything
else. -/
def edgeWidth (highway : String) : ℚ :=
  if highway = "motorway" ∨ highway = "motorway_link" then
    12/10
  else if highway = "trunk" ∨ highway = "trunk_link" ∨ highway = "primary" ∨
      highway = "primary_link" then
    1
  else if highway = "secondary" ∨ highway = "secondary_link" then
    8/10
  else if highway = "tertiary" ∨ highway = "tertiary_link" then
    6/10
  else
    4/10

/-- `get_edge_colors_by_type` (lines 268–299): one appended color per edge,
in edge-iteration order. -/
def get_edge_colors_by_type (theme : Theme) : List RoadEdge → List String
  | [] => []
  | e :: rest =>
      edgeColor theme (normalizeHighway e.highway) ::
        get_edge_colors_by_type theme rest

/-- `get_edge_widths_by_type` (lines 301–328): one appended width per edge,
in edge-iteration order. -/
def get_edge_widths_by_type : List RoadEdge → List ℚ
  | [] => []
  | e :: rest =>
      edgeWidth (normalizeHighway e.highway) :: get_edge_widths_by_type rest

/-! ## Layer-selection parsing (`parse_layers_arg`, lines 209–225)

Python strings are embedded as `List Char`; splitting on `","`,
`str.strip` (ASCII whitespace) and `str.lower` (ASCII letters) are
embedded directly so that everything evaluates in the kernel. -/

/-- ASCII whitespace stripped by Python `str.strip`. -/
def isPySpace (c : Char) : Bool :=
  c = ' ' ∨ c = '\t' ∨ c = '\n' ∨ c = '\r' ∨ c = '\x0b' ∨ c = '\x0c'

/-- Python `str.strip()`: drop leading and trailing whitespace. -/
def pyStrip (l : List Char) : List Char :=
  ((l.dropWhile isPySpace).reverse.dropWhile isPySpace).reverse

/-- Python `str.lower()` on an ASCII character. -/
def pyLowerChar (c : Char) : Char :=
  if 'A' ≤ c ∧ c ≤ 'Z' then Char.ofNat (c.toNat + 32) else c

/-- Python `str.lower()`. -/
def pyLower (l : List Char) : List Char := l.map pyLowerChar

/-- Python `s.split(",")`: split on every comma; the empty string yields
one empty field. -/
def splitOnComma : List Char → List (List Char)
  | [] => [[]]
  | c :: rest =>
      if c = ',' then [] :: splitOnComma rest
      else
        match splitOnComma rest with
        | [] => [[c]]
        | t :: ts => (c :: t) :: ts

/-- `AVAILABLE_LAYERS` (line 206). -/
def AVAILABLE_LAYERS : List (List Char) :=
  ["roads".data, "water".data, "parks".data, "subway".data]

/-- `DEFAULT_LAYERS` (line 207). -/
def DEFAULT_LAYERS : List (List Char) :=
  ["roads".data, "water".data, "parks".data]

/-- The de-duplication loop of `parse_layers_arg` (lines 224–225): keep a
token only when it is not in `seen`, adding it to `seen` otherwise. -/
def dedupKeepFirst (seen : List (List Char)) :
    List (List Char) → List (List Char)
  | [] => []
  | l :: rest =>
      if l ∈ seen then dedupKeepFirst seen rest
      else l :: dedupKeepFirst (l :: seen) rest

/-- `parse_layers_arg` (lines 209–225).  `none` models an absent
`--layers` argument; Python's `if not layers_arg` also catches the empty
string. -/
def parse_layers_arg (layers_arg : Option (List Char)) : List (List Char) :=
  match layers_arg with
  | none => DEFAULT_LAYERS
  | some s =>
      if s = [] then DEFAULT_LAYERS
      else
        let raw_layers := (splitOnComma s).map (fun t => pyLower (pyStrip t))
        let layers := raw_layers.filter (fun t => t ∈ AVAILABLE_LAYERS)
        if layers = [] then []
        else dedupKeepFirst [] layers

/-- The spec's own description of layer parsing (§3 "Layer Selection" and
§8): keep the recognized tokens, drop duplicates, preserve the order of
first occurrence.  Stated as the canonical first-occurrence fold, to be
compared with `parse_layers_arg`. -/
def parseLayersSpec (s : List Char) : List (List Char) :=
  (((splitOnComma s).map (fun t => pyLower (pyStrip t))).filter
      (fun t => t ∈ AVAILABLE_LAYERS)).foldl
    (fun acc t => if t ∈ acc then acc else acc ++ [t]) []

/-! ## Helper lemmas for the classifier and the layer parser -/

theorem get_edge_colors_length (theme : Theme) (G : List RoadEdge) :
    (get_edge_colors_by_type theme G).length = G.length := by
  induction G with
  | nil => rfl
  | cons e rest ih => simp [get_edge_colors_by_type, ih]

theorem get_edge_widths_length (G : List RoadEdge) :
    (get_edge_widths_by_type G).length = G.length := by
  induction G with
  | nil => rfl
  | cons e rest ih => simp [get_edge_widths_by_type, ih]

theorem get_edge_colors_getD (theme : Theme) (G : List RoadEdge) (i : ℕ)
    (h : i < G.length) :
    (get_edge_colors_by_type theme G).getD i "" =
      edgeColor theme (normalizeHighway (G.getD i default).highway) := by
  induction G generalizing i with
  | nil => simp at h
  | cons e rest ih =>
    cases i with
    | zero => simp [get_edge_colors_by_type]
    | succ n =>
      simpa [get_edge_colors_by_type] using ih n (by simpa using h)

theorem get_edge_widths_getD (G : List RoadEdge) (i : ℕ) (h : i < G.length) :
    (get_edge_widths_by_type G).getD i 0 =
      edgeWidth (normalizeHighway (G.getD i default).highway) := by
  induction G generalizing i with
  | nil => simp at h
  | cons e rest ih =>
    cases i with
    | zero => simp [get_edge_widths_by_type]
    | succ n =>
      simpa [get_edge_widths_by_type] using ih n (by simpa using h)

theorem dedupKeepFirst_eq_foldl (l : List (List Char)) :
    ∀ acc seen : List (List Char), (∀ x, x ∈ seen ↔ x ∈ acc) →
      l.foldl (fun acc t => if t ∈ acc then acc else acc ++ [t]) acc =
        acc ++ dedupKeepFirst seen l := by
  induction l with
  | nil => intro acc seen _; simp [dedupKeepFirst]
  | cons t rest ih =>
    intro acc seen h
    by_cases ht : t ∈ seen
    · have hta : t ∈ acc := (h t).1 ht
      simp only [List.foldl_cons, if_pos hta, dedupKeepFirst, if_pos ht]
      exact ih acc seen h
    · have hta : t ∉ acc := fun hc => ht ((h t).2 hc)
      simp only [List.foldl_cons, if_neg hta, dedupKeepFirst, if_neg ht]
      rw [ih (acc ++ [t]) (t :: seen) ?_]
      · simp
      · intro x
        simp only [List.mem_cons, List.mem_append, List.mem_singleton, h x]
        tauto

theorem dedupKeepFirst_nodup (l : List (List Char)) :
    ∀ seen, (dedupKeepFirst seen l).Nodup ∧
      ∀ x ∈ dedupKeepFirst seen l, x ∉ seen := by
  induction l with
  | nil => intro seen; simp [dedupKeepFirst]
  | cons t rest ih =>
    intro seen
    by_cases ht : t ∈ seen
    · simpa [dedupKeepFirst, ht] using ih seen
    · have h' := ih (t :: seen)
      simp only [dedupKeepFirst, if_neg ht]
      constructor
      · refine List.nodup_cons.2 ⟨fun hc => ?_, h'.1⟩
        exact (h'.2 t hc) (List.mem_cons_self t seen)
      · intro x hx
        rcases List.mem_cons.1 hx with rfl | hx'
        · exact ht
        · exact fun hs => (h'.2 x hx') (List.mem_cons_of_mem t hs)

theorem dedupKeepFirst_mem (l : List (List Char)) :
    ∀ seen x, x ∈ dedupKeepFirst seen l ↔ x ∈ l ∧ x ∉ seen := by
  induction l with
  | nil => intro seen x; simp [dedupKeepFirst]
  | cons t rest ih =>
    intro seen x
    by_cases ht : t ∈ seen
    · simp only [dedupKeepFirst, if_pos ht, ih, List.mem_cons]
      constructor
      · rintro ⟨hx, hs⟩; exact ⟨Or.inr hx, hs⟩
      · rintro ⟨rfl | hx, hs⟩
        · exact absurd ht hs
        · exact ⟨hx, hs⟩
    · simp only [dedupKeepFirst, if_neg ht, List.mem_cons, ih]
      constructor
      · rintro (rfl | ⟨hx, hs⟩)
        · exact ⟨Or.inl rfl, ht⟩
        · refine ⟨Or.inr hx, fun hsx => hs (Or.inr hsx)⟩
      · rintro ⟨rfl | hx, hs⟩
        · exact Or.inl rfl
        · by_cases hxt : x = t
          · exact Or.inl hxt
          · exact Or.inr ⟨hx, by simp [hxt, hs]⟩

theorem parse_layers_eq_spec (s : List Char) (hs : s ≠ []) :
    parse_layers_arg (some s) = parseLayersSpec s := by
  simp only [parse_layers_arg, parseLayersSpec]
  rw [dedupKeepFirst_eq_foldl _ [] [] (by simp), if_neg hs]
  simp only [List.nil_append]
  split
  · next hfil => rw [hfil]; simp [dedupKeepFirst]
  · rfl

/-! ## Claim theorems: themes, layers, road classification -/

/-- C5.  Theme fallback: for every theme identifier missing from the
store, `load_theme` returns the fixed embedded default theme with every
required color key populated, and (being a total function) never raises. -/
theorem theme_fallback_C5 (store : List (String × Theme)) (theme_name : String)
    (h : store.lookup theme_name = none) :
    load_theme store theme_name = defaultTheme ∧
    (load_theme store theme_name).bg = "#FFFFFF" ∧
    (load_theme store theme_name).text = "#000000" ∧
    (load_theme store theme_name).gradient_color = "#FFFFFF" ∧
    (load_theme store theme_name).water = "#C0C0C0" ∧
    (load_theme store theme_name).parks = "#F0F0F0" ∧
    (load_theme store theme_name).road_motorway = "#0A0A0A" ∧
    (load_theme store theme_name).road_primary = "#1A1A1A" ∧
    (load_theme store theme_name).road_secondary = "#2A2A2A" ∧
    (load_theme store theme_name).road_tertiary = "#3A3A3A" ∧
    (load_theme store theme_name).road_residential = "#4A4A4A" ∧
    (load_theme store theme_name).road_default = "#3A3A3A" ∧
    (load_theme store theme_name).subway = "#FF5722" := by
  unfold load_theme
  rw [h]
  exact ⟨rfl, rfl, rfl, rfl, rfl, rfl, rfl, rfl, rfl, rfl, rfl, rfl, rfl⟩

/-- Witness for C5 at a concrete missing identifier. -/
theorem theme_fallback_C5_witness :
    load_theme [] "noir" = defaultTheme :=
  (theme_fallback_C5 [] "noir" rfl).1

/-- C6.  Layer-selection parsing: for every nonempty comma-separated
layer string, `parse_layers_arg` agrees with the spec-side
first-occurrence fold `parseLayersSpec`, returns duplicate-free
recognized tokens drawn from the normalized input tokens, returns `[]`
when no token is recognized, and on `"roads,water,roads,bogus"` returns
`["roads", "water"]`. -/
theorem parse_layers_C6 (s : List Char) (hs : s ≠ []) :
    parse_layers_arg (some s) = parseLayersSpec s ∧
    (parse_layers_arg (some s)).Nodup ∧
    (∀ t ∈ parse_layers_arg (some s),
      t ∈ (splitOnComma s).map (fun u => pyLower (pyStrip u)) ∧
      t ∈ AVAILABLE_LAYERS) ∧
    ((∀ t ∈ (splitOnComma s).map (fun u => pyLower (pyStrip u)),
        t ∉ AVAILABLE_LAYERS) → parse_layers_arg (some s) = []) ∧
    parse_layers_arg (some "roads,water,roads,bogus".data) =
      ["roads".data, "water".data] := by
  refine ⟨parse_layers_eq_spec s hs, ?_, ?_, ?_, by decide⟩
  · simp only [parse_layers_arg]
    rw [if_neg hs]
    split
    · exact List.nodup_nil
    · exact (dedupKeepFirst_nodup _ []).1
  · intro t ht
    simp only [parse_layers_arg] at ht
    rw [if_neg hs] at ht
    split at ht
    · simp at ht
    · have := ((dedupKeepFirst_mem _ [] t).1 ht).1
      have hmem := List.mem_filter.1 this
      exact ⟨hmem.1, by simpa using hmem.2⟩
  · intro hnone
    simp only [parse_layers_arg]
    rw [if_neg hs]
    have hfil :
        ((splitOnComma s).map (fun u => pyLower (pyStrip u))).filter
          (fun t => t ∈ AVAILABLE_LAYERS) = [] := by
      refine List.filter_eq_nil_iff.2 fun t ht => ?_
      simpa using hnone t ht
    simp [hfil]

/-- Witness for C6 at the spec's concrete example string. -/
theorem parse_layers_C6_witness :
    parse_layers_arg (some "roads,water,roads,bogus".data) =
      ["roads".data, "water".data] :=
  (parse_layers_C6 "roads,water,roads,bogus".data (by decide)).2.2.2.2

/-- Counterexample to C6 as universally stated: the empty string is a
selection containing no recognized tokens, yet `parse_layers_arg` returns
the default layers `["roads", "water", "parks"]` (the Python falsy check
at lines 214–215), not the empty list the claim requires. -/
theorem parse_layers_C6_counterexample :
    parse_layers_arg (some "".data) =
      ["roads".data, "water".data, "parks".data] ∧
    parse_layers_arg (some "".data) ≠ [] := by decide

/-- C1.  Road classification: both classifier outputs are parallel to the
edge sequence (one entry per edge, same iteration order), the entry at
each position is the classification of that edge's normalized highway
tag, and the classification realizes the fixed table
motorway/motorway_link ↦ (road_motorway, 1.2),
trunk*/primary* ↦ (road_primary, 1.0), secondary* ↦ (road_secondary, 0.8),
tertiary* ↦ (road_tertiary, 0.6),
residential/living_street/unclassified ↦ (road_residential, 0.4), and
anything else ↦ (road_default, 0.4). -/
theorem road_classification_C1 (theme : Theme) (G : List RoadEdge) :
    (get_edge_colors_by_type theme G).length = G.length ∧
    (get_edge_widths_by_type G).length = G.length ∧
    (∀ i, i < G.length →
      (get_edge_colors_by_type theme G).getD i "" =
        edgeColor theme (normalizeHighway (G.getD i default).highway) ∧
      (get_edge_widths_by_type G).getD i 0 =
        edgeWidth (normalizeHighway (G.getD i default).highway)) ∧
    ∀ tag : String,
      ((tag = "motorway" ∨ tag = "motorway_link") →
        edgeColor theme tag = theme.road_motorway ∧ edgeWidth tag = 12/10) ∧
      ((tag = "trunk" ∨ tag = "trunk_link" ∨ tag = "primary" ∨
          tag = "primary_link") →
        edgeColor theme tag = theme.road_primary ∧ edgeWidth tag = 1) ∧
      ((tag = "secondary" ∨ tag = "secondary_link") →
        edgeColor theme tag = theme.road_secondary ∧ edgeWidth tag = 8/10) ∧
      ((tag = "tertiary" ∨ tag = "tertiary_link") →
        edgeColor theme tag = theme.road_tertiary ∧ edgeWidth tag = 6/10) ∧
      ((tag = "residential" ∨ tag = "living_street" ∨ tag = "unclassified") →
        edgeColor theme tag = theme.road_residential ∧ edgeWidth tag = 4/10) ∧
      (tag ∉ ["motorway", "motorway_link", "trunk", "trunk_link", "primary",
          "primary_link", "secondary", "secondary_link", "tertiary",
          "tertiary_link", "residential", "living_street", "unclassified"] →
        edgeColor theme tag = theme.road_default ∧ edgeWidth tag = 4/10) := by
  refine ⟨get_edge_colors_length theme G, get_edge_widths_length G,
    fun i hi => ⟨get_edge_colors_getD theme G i hi,
      get_edge_widths_getD G i hi⟩, fun tag => ?_⟩
  refine ⟨?_, ?_, ?_, ?_, ?_, ?_⟩
  · rintro (rfl | rfl) <;> simp [edgeColor, edgeWidth]
  · rintro (rfl | rfl | rfl | rfl) <;> simp [edgeColor, edgeWidth]
  · rintro (rfl | rfl) <;> simp [edgeColor, edgeWidth]
  · rintro (rfl | rfl) <;> simp [edgeColor, edgeWidth]
  · rintro (rfl | rfl | rfl) <;> simp [edgeColor, edgeWidth]
  · intro h
    simp only [List.mem_cons, List.not_mem_nil, or_false, not_or] at h
    obtain ⟨h1, h2, h3, h4, h5, h6, h7, h8, h9, h10, h11, h12, h13⟩ := h
    simp [edgeColor, edgeWidth, h1, h2, h3, h4, h5, h6, h7, h8, h9, h10,
      h11, h12, h13]

/-- Witness for C1: the spec's end-to-end example, a three-edge graph
tagged motorway / residential / footway. -/
theorem road_classification_C1_witness :
    (get_edge_colors_by_type defaultTheme
        [⟨HighwayAttr.scalar "motorway"⟩, ⟨HighwayAttr.scalar "residential"⟩,
          ⟨HighwayAttr.scalar "footway"⟩]).getD 0 "" =
      defaultTheme.road_motorway ∧
    (get_edge_widths_by_type
        [⟨HighwayAttr.scalar "motorway"⟩, ⟨HighwayAttr.scalar "residential"⟩,
          ⟨HighwayAttr.scalar "footway"⟩]).getD 0 0 = 12/10 := by
  have h := road_classification_C1 defaultTheme
    [⟨HighwayAttr.scalar "motorway"⟩, ⟨HighwayAttr.scalar "residential"⟩,
      ⟨HighwayAttr.scalar "footway"⟩]
  have hpt := h.2.2.1 0 (by decide)
  have htab := (h.2.2.2 "motorway").1 (Or.inl rfl)
  refine ⟨?_, ?_⟩
  · rw [hpt.1]; exact htab.1
  · rw [hpt.2]; exact htab.2

/-- C10.  An edge whose highway attribute is an empty list normalizes to
`"unclassified"`, the same canonical tag as an absent attribute, and is
classified as (road_residential, 0.4) by both classifier outputs. -/
theorem empty_highway_C10 (theme : Theme) (G : List RoadEdge) (i : ℕ)
    (hi : i < G.length)
    (he : (G.getD i default).highway = HighwayAttr.tagList []) :
    normalizeHighway (G.getD i default).highway =
      normalizeHighway HighwayAttr.absent ∧
    normalizeHighway (G.getD i default).highway = "unclassified" ∧
    (get_edge_colors_by_type theme G).getD i "" = theme.road_residential ∧
    (get_edge_widths_by_type G).getD i 0 = 4/10 := by
  rw [get_edge_colors_getD theme G i hi, get_edge_widths_getD G i hi, he]
  refine ⟨rfl, rfl, ?_, ?_⟩ <;> simp [normalizeHighway, edgeColor, edgeWidth]

/-- Witness for C10 on a one-edge graph with an empty-list highway tag. -/
theorem empty_highway_C10_witness :
    (get_edge_colors_by_type defaultTheme
        [⟨HighwayAttr.tagList []⟩]).getD 0 "" =
      defaultTheme.road_residential :=
  (empty_highway_C10 defaultTheme [⟨HighwayAttr.tagList []⟩] 0 (by decide)
    rfl).2.2.1

/-! ## Aspect-ratio cropping (`create_poster`, lines 466–506)

After the layers are drawn the axes hold the data-derived view limits.
The cropping block reads `(xlim, ylim)`, computes the data extent, its
centroid and the current width/height ratio, and conditionally resets
one axis.  Coordinates are embedded as `ℚ`. -/

/-- The matplotlib view limits `(xlim, ylim)` as a record. -/
structure Extent where
  xlo : ℚ
  xhi : ℚ
  ylo : ℚ
  yhi : ℚ
deriving DecidableEq, Repr

/-- `data_width = xlim[1] - xlim[0]` (line 474). -/
def Extent.dataWidth (e : Extent) : ℚ := e.xhi - e.xlo

/-- `data_height = ylim[1] - ylim[0]` (line 475). -/
def Extent.dataHeight (e : Extent) : ℚ := e.yhi - e.ylo

/-- `data_center_x = (xlim[0] + xlim[1]) / 2` (line 476). -/
def Extent.centerX (e : Extent) : ℚ := (e.xlo + e.xhi) / 2

/-- `data_center_y = (ylim[0] + ylim[1]) / 2` (line 477). -/
def Extent.centerY (e : Extent) : ℚ := (e.ylo + e.yhi) / 2

/-- The cropping block of `create_poster` (lines 471–506).
`use_exact_bounds` selects the 5%-tolerance policy for explicit bounding
boxes; otherwise the center+radius policy always resets one axis to hit
the target ratio exactly. -/
def cropToAspect (use_exact_bounds : Bool) (target_ratio : ℚ)
    (e : Extent) : Extent :=
  let data_width := e.dataWidth
  let data_height := e.dataHeight
  let data_center_x := e.centerX
  let data_center_y := e.centerY
  let current_ratio := data_width / data_height
  if use_exact_bounds then
    let tolerance : ℚ := 5/100
    let ratio_diff := |current_ratio - target_ratio| / target_ratio
    if ratio_diff > tolerance then
      if current_ratio > target_ratio then
        let new_width := data_height * target_ratio
        { e with xlo := data_center_x - new_width / 2,
                 xhi := data_center_x + new_width / 2 }
      else
        let new_height := data_width / target_ratio
        { e with ylo := data_center_y - new_height / 2,
                 yhi := data_center_y + new_height / 2 }
    else e
  else
    if current_ratio > target_ratio then
      let new_width := data_height * target_ratio
      { e with xlo := data_center_x - new_width / 2,
               xhi := data_center_x + new_width / 2 }
    else
      let new_height := data_width / target_ratio
      { e with ylo := data_center_y - new_height / 2,
               yhi := data_center_y + new_height / 2 }

/-! ### Branch equations for `cropToAspect` -/

theorem cropToAspect_exact_keep (e : Extent) (t : ℚ)
    (h : ¬ 5/100 < |e.dataWidth / e.dataHeight - t| / t) :
    cropToAspect true t e = e := by
  simp [cropToAspect, h]

theorem cropToAspect_exact_wide (e : Extent) (t : ℚ)
    (h : 5/100 < |e.dataWidth / e.dataHeight - t| / t)
    (hr : t < e.dataWidth / e.dataHeight) :
    cropToAspect true t e =
      { e with xlo := e.centerX - e.dataHeight * t / 2,
               xhi := e.centerX + e.dataHeight * t / 2 } := by
  simp [cropToAspect, h, hr]

theorem cropToAspect_exact_tall (e : Extent) (t : ℚ)
    (h : 5/100 < |e.dataWidth / e.dataHeight - t| / t)
    (hr : ¬ t < e.dataWidth / e.dataHeight) :
    cropToAspect true t e =
      { e with ylo := e.centerY - e.dataWidth / t / 2,
               yhi := e.centerY + e.dataWidth / t / 2 } := by
  simp [cropToAspect, h, hr]

theorem cropToAspect_fill_wide (e : Extent) (t : ℚ)
    (hr : t < e.dataWidth / e.dataHeight) :
    cropToAspect false t e =
      { e with xlo := e.centerX - e.dataHeight * t / 2,
               xhi := e.centerX + e.dataHeight * t / 2 } := by
  simp [cropToAspect, hr]

theorem cropToAspect_fill_tall (e : Extent) (t : ℚ)
    (hr : ¬ t < e.dataWidth / e.dataHeight) :
    cropToAspect false t e =
      { e with ylo := e.centerY - e.dataWidth / t / 2,
               yhi := e.centerY + e.dataWidth / t / 2 } := by
  simp [cropToAspect, hr]

/-! ### Arithmetic facts about the two adjusted records -/

theorem wide_record_dataWidth (e : Extent) (t : ℚ) :
    (Extent.mk (e.centerX - e.dataHeight * t / 2)
      (e.centerX + e.dataHeight * t / 2) e.ylo e.yhi).dataWidth =
      e.dataHeight * t := by
  simp only [Extent.dataWidth]
  ring

theorem wide_record_centerX (e : Extent) (t : ℚ) :
    (Extent.mk (e.centerX - e.dataHeight * t / 2)
      (e.centerX + e.dataHeight * t / 2) e.ylo e.yhi).centerX =
      e.centerX := by
  simp only [Extent.centerX]
  ring

theorem tall_record_dataHeight (e : Extent) (t : ℚ) :
    (Extent.mk e.xlo e.xhi (e.centerY - e.dataWidth / t / 2)
      (e.centerY + e.dataWidth / t / 2)).dataHeight =
      e.dataWidth / t := by
  simp only [Extent.dataHeight]
  ring

theorem tall_record_centerY (e : Extent) (t : ℚ) :
    (Extent.mk e.xlo e.xhi (e.centerY - e.dataWidth / t / 2)
      (e.centerY + e.dataWidth / t / 2)).centerY =
      e.centerY := by
  simp only [Extent.centerY]
  ring

theorem div_self_mul_ratio (dw t : ℚ) (hdw : dw ≠ 0) (ht : t ≠ 0) :
    dw / (dw / t) = t := by
  field_simp

/-! ### Claim theorems: cropping policies -/

/-- C2.  Exact-bounds crop policy: if the relative ratio deviation is at
most 5% the view limits are unchanged; otherwise exactly the oversized
axis is shrunk, centered on the data centroid, to hit the target ratio
exactly, the other axis untouched. -/
theorem crop_exact_bounds_C2 (e : Extent) (t : ℚ)
    (hw : 0 < e.dataWidth) (hh : 0 < e.dataHeight) (ht : 0 < t) :
    (|e.dataWidth / e.dataHeight - t| / t ≤ 5/100 →
      cropToAspect true t e = e) ∧
    (5/100 < |e.dataWidth / e.dataHeight - t| / t →
      (t < e.dataWidth / e.dataHeight →
        (cropToAspect true t e).ylo = e.ylo ∧
        (cropToAspect true t e).yhi = e.yhi ∧
        (cropToAspect true t e).dataWidth = e.dataHeight * t ∧
        (cropToAspect true t e).dataWidth < e.dataWidth ∧
        (cropToAspect true t e).centerX = e.centerX ∧
        (cropToAspect true t e).dataWidth /
          (cropToAspect true t e).dataHeight = t) ∧
      (e.dataWidth / e.dataHeight < t →
        (cropToAspect true t e).xlo = e.xlo ∧
        (cropToAspect true t e).xhi = e.xhi ∧
        (cropToAspect true t e).dataHeight = e.dataWidth / t ∧
        (cropToAspect true t e).dataHeight < e.dataHeight ∧
        (cropToAspect true t e).centerY = e.centerY ∧
        (cropToAspect true t e).dataWidth /
          (cropToAspect true t e).dataHeight = t)) := by
  constructor
  · intro hle
    exact cropToAspect_exact_keep e t (not_lt.2 hle)
  · intro hdev
    constructor
    · intro hr
      rw [cropToAspect_exact_wide e t hdev hr]
      have hW := wide_record_dataWidth e t
      have hC := wide_record_centerX e t
      refine ⟨rfl, rfl, hW, ?_, hC, ?_⟩
      · rw [hW]
        calc e.dataHeight * t = t * e.dataHeight := by ring
        _ < e.dataWidth := (lt_div_iff hh).1 hr
      · rw [hW]
        show e.dataHeight * t / (e.yhi - e.ylo) = t
        rw [show e.yhi - e.ylo = e.dataHeight from rfl, mul_comm,
          mul_div_assoc, div_self hh.ne', mul_one]
    · intro hr
      have hnr : ¬ t < e.dataWidth / e.dataHeight := not_lt.2 hr.le
      rw [cropToAspect_exact_tall e t hdev hnr]
      have hH := tall_record_dataHeight e t
      have hC := tall_record_centerY e t
      refine ⟨rfl, rfl, hH, ?_, hC, ?_⟩
      · rw [hH]
        rw [div_lt_iff ht]
        calc e.dataWidth < t * e.dataHeight := (div_lt_iff hh).1 hr
        _ = e.dataHeight * t := by ring
      · rw [hH]
        show (e.xhi - e.xlo) / (e.dataWidth / t) = t
        rw [show e.xhi - e.xlo = e.dataWidth from rfl]
        exact div_self_mul_ratio e.dataWidth t hw.ne' ht.ne'

/-- Witness for C2 on a 4×1 extent with target ratio 1: deviation 300%,
the width axis is cropped to ratio 1. -/
theorem crop_exact_bounds_C2_witness :
    (cropToAspect true 1 (Extent.mk 0 4 0 1)).dataWidth /
      (cropToAspect true 1 (Extent.mk 0 4 0 1)).dataHeight = 1 :=
  (((crop_exact_bounds_C2 (Extent.mk 0 4 0 1) 1 (by norm_num [Extent.dataWidth])
      (by norm_num [Extent.dataHeight]) one_pos).2
    (by norm_num [Extent.dataWidth, Extent.dataHeight])).1
    (by norm_num [Extent.dataWidth, Extent.dataHeight])).2.2.2.2.2

/-- C3.  Center+radius crop policy: the crop always produces view limits
whose width/height ratio equals the target exactly, centered on the data
centroid, shrinking whichever axis is oversized, for any deviation. -/
theorem crop_center_radius_C3 (e : Extent) (t : ℚ)
    (hw : 0 < e.dataWidth) (hh : 0 < e.dataHeight) (ht : 0 < t) :
    (cropToAspect false t e).dataWidth /
      (cropToAspect false t e).dataHeight = t ∧
    (cropToAspect false t e).centerX = e.centerX ∧
    (cropToAspect false t e).centerY = e.centerY ∧
    (cropToAspect false t e).dataWidth ≤ e.dataWidth ∧
    (cropToAspect false t e).dataHeight ≤ e.dataHeight ∧
    (t < e.dataWidth / e.dataHeight →
      (cropToAspect false t e).dataWidth = e.dataHeight * t ∧
      (cropToAspect false t e).dataWidth < e.dataWidth ∧
      (cropToAspect false t e).ylo = e.ylo ∧
      (cropToAspect false t e).yhi = e.yhi) ∧
    (e.dataWidth / e.dataHeight ≤ t →
      (cropToAspect false t e).dataHeight = e.dataWidth / t ∧
      (cropToAspect false t e).dataHeight ≤ e.dataHeight ∧
      (cropToAspect false t e).xlo = e.xlo ∧
      (cropToAspect false t e).xhi = e.xhi) := by
  by_cases hr : t < e.dataWidth / e.dataHeight
  · rw [cropToAspect_fill_wide e t hr]
    have hW := wide_record_dataWidth e t
    have hC := wide_record_centerX e t
    have hlt : e.dataHeight * t < e.dataWidth := by
      calc e.dataHeight * t = t * e.dataHeight := by ring
      _ < e.dataWidth := (lt_div_iff hh).1 hr
    have hratio :
        (Extent.mk (e.centerX - e.dataHeight * t / 2)
            (e.centerX + e.dataHeight * t / 2) e.ylo e.yhi).dataWidth /
          (Extent.mk (e.centerX - e.dataHeight * t / 2)
            (e.centerX + e.dataHeight * t / 2) e.ylo e.yhi).dataHeight = t := by
      rw [hW]
      show e.dataHeight * t / (e.yhi - e.ylo) = t
      rw [show e.yhi - e.ylo = e.dataHeight from rfl, mul_comm,
        mul_div_assoc, div_self hh.ne', mul_one]
    refine ⟨hratio, hC, rfl, by rw [hW]; exact hlt.le, le_refl _, ?_, ?_⟩
    · intro _
      exact ⟨hW, by rw [hW]; exact hlt, rfl, rfl⟩
    · intro hle
      exact absurd hr (not_lt.2 hle)
  · rw [cropToAspect_fill_tall e t hr]
    have hH := tall_record_dataHeight e t
    have hC := tall_record_centerY e t
    have hle : e.dataWidth / t ≤ e.dataHeight := by
      rw [div_le_iff ht]
      calc e.dataWidth = (e.dataWidth / e.dataHeight) * e.dataHeight := by
            field_simp
      _ ≤ t * e.dataHeight := by
            exact mul_le_mul_of_nonneg_right (not_lt.1 hr) hh.le
      _ = e.dataHeight * t := by ring
    have hratio :
        (Extent.mk e.xlo e.xhi (e.centerY - e.dataWidth / t / 2)
            (e.centerY + e.dataWidth / t / 2)).dataWidth /
          (Extent.mk e.xlo e.xhi (e.centerY - e.dataWidth / t / 2)
            (e.centerY + e.dataWidth / t / 2)).dataHeight = t := by
      rw [hH]
      show (e.xhi - e.xlo) / (e.dataWidth / t) = t
      rw [show e.xhi - e.xlo = e.dataWidth from rfl]
      exact div_self_mul_ratio e.dataWidth t hw.ne' ht.ne'
    refine ⟨hratio, rfl, hC, le_refl _, by rw [hH]; exact hle, ?_, ?_⟩
    · intro hlt
      exact absurd hlt hr
    · intro _
      exact ⟨hH, by rw [hH]; exact hle, rfl, rfl⟩

/-- Witness for C3 on a 1×4 extent with target ratio 1: the height axis is
cropped and the result hits ratio 1 exactly. -/
theorem crop_center_radius_C3_witness :
    (cropToAspect false 1 (Extent.mk 0 1 0 4)).dataWidth /
      (cropToAspect false 1 (Extent.mk 0 1 0 4)).dataHeight = 1 :=
  (crop_center_radius_C3 (Extent.mk 0 1 0 4) 1 (by norm_num [Extent.dataWidth])
    (by norm_num [Extent.dataHeight]) one_pos).1

/-- C8.  Cropping idempotence: an extent already on the target ratio is
left unchanged by either crop policy, so applying the policy twice gives
the same view limits as applying it once. -/
theorem crop_idempotent_C8 (mode : Bool) (e : Extent) (t : ℚ)
    (hw : 0 < e.dataWidth) (hh : 0 < e.dataHeight)
    (hr : e.dataWidth / e.dataHeight = t) :
    cropToAspect mode t e = e ∧
    cropToAspect mode t (cropToAspect mode t e) = cropToAspect mode t e := by
  have ht : 0 < t := hr ▸ div_pos hw hh
  have hfix : cropToAspect mode t e = e := by
    cases mode with
    | false =>
      have hnr : ¬ t < e.dataWidth / e.dataHeight := by
        rw [hr]
        exact lt_irrefl t
      rw [cropToAspect_fill_tall e t hnr]
      have hdh : e.dataWidth / t = e.dataHeight := by
        rw [← hr]
        field_simp
      obtain ⟨xlo, xhi, ylo, yhi⟩ := e
      simp only [Extent.centerY, Extent.dataWidth, Extent.dataHeight] at hdh ⊢
      rw [Extent.mk.injEq]
      refine ⟨rfl, rfl, ?_, ?_⟩ <;> rw [hdh] <;> ring
    | true =>
      apply cropToAspect_exact_keep
      rw [hr, sub_self, abs_zero, zero_div]
      norm_num
  exact ⟨hfix, by rw [hfix, hfix]⟩

/-- Witness for C8 on a 2×1 extent with target ratio 2, in center+radius
mode. -/
theorem crop_idempotent_C8_witness :
    cropToAspect false 2 (Extent.mk 0 2 0 1) = Extent.mk 0 2 0 1 :=
  (crop_idempotent_C8 false (Extent.mk 0 2 0 1) 2
    (by norm_num [Extent.dataWidth]) (by norm_num [Extent.dataHeight])
    (by norm_num [Extent.dataWidth, Extent.dataHeight])).1

/-! ## Coordinate formatting (`create_poster`, lines 540–546)

```python
coords = f"{lat:.4f}° N / {lon:.4f}° E" if lat >= 0 else f"{abs(lat):.4f}° S / {lon:.4f}° E"
if lon < 0:
    coords = coords.replace("E", "W")
```

Python's `f"{x:.4f}"` (fixed-point, four decimals, round half to even,
leading `-` for negative values) is embedded over `ℚ`; the digit
rendering is written with explicit fuel so that everything reduces in the
kernel.  `.replace("E", "W")` with a one-character pattern is a character
map. -/

/-- Decimal digits of `n`, most significant first; `fuel` bounds the
recursion. -/
def natToCharsAux (fuel n : ℕ) : List Char :=
  match fuel with
  | 0 => []
  | fuel + 1 =>
      if n = 0 then []
      else natToCharsAux fuel (n / 10) ++ [Char.ofNat (48 + n % 10)]

/-- Decimal rendering of a natural number. -/
def natToChars (n : ℕ) : List Char :=
  if n = 0 then ['0'] else natToCharsAux (n + 1) n

/-- Left-pad with `'0'` to four digits (the fractional part of `%.4f`). -/
def pad4 (l : List Char) : List Char := List.replicate (4 - l.length) '0' ++ l

/-- Floor of a rational, computed on the numerator/denominator pair. -/
def ratFloor (q : ℚ) : ℤ := Int.fdiv q.num q.den

/-- Round to nearest, ties to even — the rounding Python applies when
formatting a value to a fixed number of decimals. -/
def roundHalfEven (q : ℚ) : ℤ :=
  if q - ratFloor q < 1/2 then ratFloor q
  else if 1/2 < q - ratFloor q then ratFloor q + 1
  else if ratFloor q % 2 = 0 then ratFloor q else ratFloor q + 1

/-- `f"{q:.4f}"` for a nonnegative value: integer part, `'.'`, then the
four fractional digits. -/
def fixed4Nonneg (q : ℚ) : List Char :=
  let n := (roundHalfEven (q * 10000)).toNat
  natToChars (n / 10000) ++ '.' :: pad4 (natToChars (n % 10000))

/-- Python `f"{q:.4f}"`: a leading `'-'` for negative values, then the
magnitude to four decimal places. -/
def fixed4Chars (q : ℚ) : List Char :=
  if q < 0 then '-' :: fixed4Nonneg (-q) else fixed4Nonneg q

/-- Python `abs`. -/
def pyAbs (q : ℚ) : ℚ := if q < 0 then -q else q

/-- The coordinate line of `create_poster` (lines 540–543): the N branch
formats the raw `lon` (not its magnitude), the S branch applies `abs` to
`lat` only; afterwards every `'E'` is replaced by `'W'` when `lon < 0`. -/
def formatCoord (lat lon : ℚ) : List Char :=
  let coords :=
    if 0 ≤ lat then
      fixed4Chars lat ++ "° N / ".data ++ fixed4Chars lon ++ "° E".data
    else
      fixed4Chars (pyAbs lat) ++ "° S / ".data ++ fixed4Chars lon ++ "° E".data
  if lon < 0 then coords.map (fun c => if c = 'E' then 'W' else c) else coords

/-- C4 (code bug).  The claim requires each coordinate's magnitude with
the hemisphere letter chosen by sign, e.g.
`formatCoord(40.7128, -74.0060) = "40.7128° N / 74.0060° W"`.  The code
formats the raw signed longitude in the N branch (only the latitude gets
`abs`, in the S branch), so at that very input it renders
`"40.7128° N / -74.0060° W"` — a minus sign in front of an already
W-marked longitude.  The S-branch example of the claim does hold. -/
theorem coord_format_C4 :
    formatCoord (407128/10000) (-740060/10000) =
      "40.7128° N / -74.0060° W".data ∧
    formatCoord (407128/10000) (-740060/10000) ≠
      "40.7128° N / 74.0060° W".data ∧
    formatCoord (-338688/10000) (1512093/10000) =
      "33.8688° S / 151.2093° E".data := by
  with_unfolding_all decide

/-! ## Post-processing (`add_grain_effect` lines 41–61,
`add_blur_fade_top` lines 63–107, `apply_post_processing` lines 109–142)

A raster image is a pair of dimensions plus a pixel map (one rational
channel value per coordinate; the claims do not depend on the channel
count).  PIL's Gaussian blur and numpy's normal sampling are external:
they enter as uninterpreted function parameters.  `crop`, `blend` and
`paste` are embedded concretely. -/

/-- A raster image. -/
structure Img where
  width : ℕ
  height : ℕ
  pix : ℕ → ℕ → ℚ

/-- `image.crop((0, y0, width, y1))`: the full-width strip of rows
`[y0, y1)`. -/
def cropRows (im : Img) (y0 y1 : ℕ) : Img :=
  { width := im.width, height := y1 - y0, pix := fun x y => im.pix x (y0 + y) }

/-- `Image.blend(a, b, alpha)`: pixelwise `a*(1-alpha) + b*alpha`. -/
def blendImg (a b : Img) (alpha : ℚ) : Img :=
  { width := a.width, height := a.height,
    pix := fun x y => a.pix x y * (1 - alpha) + b.pix x y * alpha }

/-- `base.paste(strip, (0, y0))`: replace rows `[y0, y0 + strip.height)`. -/
def pasteRows (base strip : Img) (y0 : ℕ) : Img :=
  { width := base.width, height := base.height,
    pix := fun x y =>
      if y0 ≤ y ∧ y < y0 + strip.height then strip.pix x (y - y0)
      else base.pix x y }

/-- `fade_height = int(height * fade_height_ratio)` (line 77); for the
nonnegative ratios in use, Python `int` truncation equals the floor. -/
def fadeHeightOf (height : ℕ) (ratio : ℚ) : ℕ :=
  (ratFloor ((height : ℚ) * ratio)).toNat

/-- One iteration of the blending loop of `add_blur_fade_top`
(lines 90–105): crop the band from the original and the blurred copy,
blend them with factor `1.0 - i / num_steps`, paste at `y_start`; the
last band extends to `fade_height`. -/
def blurStep (image blurred : Img) (fade_height num_steps step_height : ℕ)
    (result : Img) (i : ℕ) : Img :=
  let y_start := i * step_height
  let y_end := if i < num_steps - 1 then (i + 1) * step_height else fade_height
  let original_strip := cropRows image y_start y_end
  let blurred_strip := cropRows blurred y_start y_end
  let blend := 1 - (i : ℚ) / (num_steps : ℚ)
  let blended_strip := blendImg original_strip blurred_strip blend
  pasteRows result blended_strip y_start

/-- `add_blur_fade_top` (lines 63–107), parameterized by the external
Gaussian blur `blurOf` (PIL `GaussianBlur`, uninterpreted).
`num_steps = min(fade_height, 50)`; when `fade_height = 0` the Python
`step_height = fade_height // num_steps` divides by zero, embedded as
`none`. -/
def add_blur_fade_top (blurOf : Img → ℕ → Img) (image : Img)
    (fade_height_ratio : ℚ) (max_blur : ℕ) : Option Img :=
  let fade_height := fadeHeightOf image.height fade_height_ratio
  let blurred := blurOf image max_blur
  let num_steps := min fade_height 50
  if num_steps = 0 then none
  else
    let step_height := fade_height / num_steps
    some ((List.range num_steps).foldl
      (blurStep image blurred fade_height num_steps step_height) image)

/-- `add_grain_effect` (lines 41–61), parameterized by the sampled
unit-variance noise field (`np.random.normal`, uninterpreted): add noise
scaled by `intensity * 255`, clip to `[0, 255]`. -/
def add_grain_effect (noise : ℕ → ℕ → ℚ) (image : Img)
    (intensity : ℚ) : Img :=
  { width := image.width, height := image.height,
    pix := fun x y =>
      min (max (image.pix x y + noise x y * (intensity * 255)) 0) 255 }

/-- The image-transformation core of `apply_post_processing`
(lines 109–142).  Rasterizing the figure and saving the file are external
I/O; on the in-memory image, blur-fade is applied exactly when the paper
size is `"9:19.5"` (ratio 0.35, max blur 12), then grain (intensity 0.12)
when enabled. -/
def apply_post_processing (blurOf : Img → ℕ → Img) (noise : ℕ → ℕ → ℚ)
    (image : Img) (paper_size : String) (grain : Bool) : Option Img :=
  let afterBlur :=
    if paper_size = "9:19.5" then add_blur_fade_top blurOf image (35/100) 12
    else some image
  afterBlur.map fun im =>
    if grain then add_grain_effect noise im (12/100) else im

/-- The stepped blend factor of band `i` (line 95): `1.0 - i / num_steps`,
`1.0` meaning full blur. -/
def blendFactor (num_steps i : ℕ) : ℚ := 1 - (i : ℚ) / (num_steps : ℚ)

/-- The band containing fade-zone row `y`: bands are `step_height` rows
tall and the last band absorbs the remainder up to the fade height. -/
def bandOf (num_steps step_height y : ℕ) : ℕ :=
  min (y / step_height) (num_steps - 1)

/-! ### The blending loop, resolved per pixel -/

theorem blur_fold_dims (image blurred : Img) (fh ns sh : ℕ)
    (l : List ℕ) :
    ∀ res : Img,
      (l.foldl (blurStep image blurred fh ns sh) res).width = res.width ∧
      (l.foldl (blurStep image blurred fh ns sh) res).height = res.height := by
  induction l with
  | nil => intro res; exact ⟨rfl, rfl⟩
  | cons i rest ih =>
    intro res
    rw [List.foldl_cons]
    exact ih (blurStep image blurred fh ns sh res i)

theorem blur_fold_pix (image blurred : Img) (fh ns sh : ℕ)
    (hns1 : 1 ≤ ns) (hnsfh : ns ≤ fh) (hsh : sh = fh / ns) :
    ∀ k, k ≤ ns → ∀ x y,
      ((List.range k).foldl (blurStep image blurred fh ns sh) image).pix x y =
        if y < (if k = ns then fh else k * sh) then
          image.pix x y * (1 - blendFactor ns (bandOf ns sh y)) +
            blurred.pix x y * blendFactor ns (bandOf ns sh y)
        else image.pix x y := by
  have hsh1 : 1 ≤ sh := by
    rw [hsh]
    exact (Nat.one_le_div_iff (by omega)).2 hnsfh
  have hshns : ns * sh ≤ fh := by
    rw [hsh, Nat.mul_comm]
    exact Nat.div_mul_le_self fh ns
  intro k
  induction k with
  | zero =>
    intro _ x y
    have h0 : ¬ ((0 : ℕ) = ns) := by omega
    simp [h0]
  | succ k ih =>
    intro hk x y
    have hke : ¬ (k = ns) := by omega
    have hihy := ih (by omega) x y
    rw [List.range_succ, List.foldl_append, List.foldl_cons, List.foldl_nil]
    simp only [blurStep, pasteRows, blendImg, cropRows]
    have hyse : k * sh ≤ (if k < ns - 1 then (k + 1) * sh else fh) := by
      by_cases h : k < ns - 1
      · rw [if_pos h]
        exact Nat.mul_le_mul_right sh (by omega)
      · rw [if_neg h]
        calc k * sh ≤ ns * sh := Nat.mul_le_mul_right sh (by omega)
        _ ≤ fh := hshns
    have hEk1 : (if k < ns - 1 then (k + 1) * sh else fh) =
        (if k + 1 = ns then fh else (k + 1) * sh) := by
      by_cases h : k < ns - 1
      · have h' : ¬ (k + 1 = ns) := by omega
        rw [if_pos h, if_neg h']
      · have h' : k + 1 = ns := by omega
        rw [if_neg h, if_pos h']
    by_cases hin :
        k * sh ≤ y ∧ y < (if k < ns - 1 then (k + 1) * sh else fh)
    · have hcond : k * sh ≤ y ∧
          y < k * sh + ((if k < ns - 1 then (k + 1) * sh else fh) - k * sh) := by
        omega
      rw [if_pos hcond]
      have hyy : k * sh + (y - k * sh) = y := by omega
      rw [hyy]
      have hb : bandOf ns sh y = k := by
        unfold bandOf
        have h1 : k ≤ y / sh := (Nat.le_div_iff_mul_le (by omega)).2 hin.1
        by_cases h : k < ns - 1
        · have h2 : y < (k + 1) * sh := by
            have := hin.2
            rw [if_pos h] at this
            exact this
          have h3 : y / sh < k + 1 :=
            (Nat.div_lt_iff_lt_mul (by omega)).2 h2
          have h4 : y / sh = k := by omega
          rw [h4]
          exact Nat.min_eq_left (by omega)
        · have hk1 : k = ns - 1 := by omega
          rw [hk1] at h1 ⊢
          exact Nat.min_eq_right h1
      have hy1 : y < (if k + 1 = ns then fh else (k + 1) * sh) := by
        rw [← hEk1]
        exact hin.2
      rw [if_pos hy1, hb]
      simp [blendFactor]
    · have hcond : ¬ (k * sh ≤ y ∧
          y < k * sh + ((if k < ns - 1 then (k + 1) * sh else fh) - k * sh)) := by
        omega
      rw [if_neg hcond, hihy, if_neg hke]
      by_cases hy : y < k * sh
      · have hy1 : y < (if k + 1 = ns then fh else (k + 1) * sh) := by
          rw [← hEk1]
          omega
        rw [if_pos hy, if_pos hy1]
      · have hy1 : ¬ (y < (if k + 1 = ns then fh else (k + 1) * sh)) := by
          rw [← hEk1]
          omega
        rw [if_neg hy, if_neg hy1]

/-! ### Claim theorems: post-processing -/

/-- C9.  Blur-fade totality: `num_steps = min(fade_height, 50)` divides
`fade_height` before the loop, so a zero fade height (any image height
`≤ 2` at the default ratio 0.35) divides by zero and the function fails
(embedded as `none`); under the precondition `fade_height ≥ 1` the
function is total and returns an image of the same width and height. -/
theorem blur_fade_totality_C9 :
    (∀ (blurOf : Img → ℕ → Img) (ratio : ℚ) (max_blur : ℕ) (image : Img),
      fadeHeightOf image.height ratio = 0 →
      add_blur_fade_top blurOf image ratio max_blur = none) ∧
    (∀ h : ℕ, h ≤ 2 → fadeHeightOf h (35/100) = 0) ∧
    (∀ (blurOf : Img → ℕ → Img) (ratio : ℚ) (max_blur : ℕ) (image : Img),
      1 ≤ fadeHeightOf image.height ratio →
      ∃ out, add_blur_fade_top blurOf image ratio max_blur = some out ∧
        out.width = image.width ∧ out.height = image.height) := by
  refine ⟨?_, ?_, ?_⟩
  · intro blurOf ratio maxb image hf
    simp [add_blur_fade_top, hf]
  · intro h hh
    interval_cases h <;> with_unfolding_all decide
  · intro blurOf ratio maxb image hf
    have hne : ¬ (min (fadeHeightOf image.height ratio) 50 = 0) := by omega
    refine ⟨(List.range (min (fadeHeightOf image.height ratio) 50)).foldl
        (blurStep image (blurOf image maxb) (fadeHeightOf image.height ratio)
          (min (fadeHeightOf image.height ratio) 50)
          (fadeHeightOf image.height ratio /
            min (fadeHeightOf image.height ratio) 50)) image, ?_, ?_, ?_⟩
    · simp only [add_blur_fade_top]
      rw [if_neg hne]
    · exact (blur_fold_dims image (blurOf image maxb) _ _ _ _ image).1
    · exact (blur_fold_dims image (blurOf image maxb) _ _ _ _ image).2

/-- Witness for C9: a 1×2 image makes the fade height zero and the
function fail. -/
theorem blur_fade_totality_C9_witness :
    add_blur_fade_top (fun im _ => im) (Img.mk 1 2 fun _ _ => 0)
      (35/100) 12 = none :=
  blur_fade_totality_C9.1 (fun im _ => im) (35/100) 12
    (Img.mk 1 2 fun _ _ => 0) (by with_unfolding_all decide)

/-- C7.  Blur-fade schedule: the graduated top blur runs exactly when the
paper size is the lockscreen format `"9:19.5"` (ratio 0.35, max blur 12,
before grain); the result blends the fully blurred copy into the original
over the top `⌊35%·height⌋` rows only, in `min(fade_height, 50) ≤ 50`
bands, with the stepped linear factor `1 - band/num_steps`: `1.0` (full
blur) on the very top band, strictly decreasing per band, and reaching
`0.0` at the bottom edge of the fade zone. -/
theorem blur_fade_schedule_C7 (blurOf : Img → ℕ → Img) (noise : ℕ → ℕ → ℚ)
    (image : Img) (paper_size : String) (grain : Bool) (out : Img)
    (fh ns sh : ℕ)
    (hfh : fh = fadeHeightOf image.height (35/100))
    (hns : ns = min fh 50) (hsh : sh = fh / ns)
    (hout : add_blur_fade_top blurOf image (35/100) 12 = some out) :
    (paper_size ≠ "9:19.5" →
      apply_post_processing blurOf noise image paper_size grain =
        some (if grain then add_grain_effect noise image (12/100)
          else image)) ∧
    (apply_post_processing blurOf noise image "9:19.5" grain =
      (add_blur_fade_top blurOf image (35/100) 12).map
        (fun im => if grain then add_grain_effect noise im (12/100)
          else im)) ∧
    ns ≤ 50 ∧ 1 ≤ ns ∧
    (∀ x y, fh ≤ y → out.pix x y = image.pix x y) ∧
    (∀ x y, y < fh →
      out.pix x y =
        image.pix x y * (1 - blendFactor ns (bandOf ns sh y)) +
          (blurOf image 12).pix x y * blendFactor ns (bandOf ns sh y)) ∧
    (∀ y, y < sh → bandOf ns sh y = 0) ∧
    blendFactor ns 0 = 1 ∧
    (∀ i j, i < j → j ≤ ns → blendFactor ns j < blendFactor ns i) ∧
    blendFactor ns ns = 0 := by
  simp only [add_blur_fade_top] at hout
  rw [← hfh, ← hns, ← hsh] at hout
  have hns0 : ¬ (ns = 0) := by
    intro h
    rw [if_pos h] at hout
    exact Option.noConfusion hout
  rw [if_neg hns0] at hout
  have hout2 := Option.some.inj hout
  have hns1 : 1 ≤ ns := by omega
  have hnsfh : ns ≤ fh := by omega
  have hform := blur_fold_pix image (blurOf image 12) fh ns sh hns1 hnsfh hsh
    ns le_rfl
  refine ⟨?_, ?_, by omega, hns1, ?_, ?_, ?_, ?_, ?_, ?_⟩
  · intro hne
    simp [apply_post_processing, hne]
  · simp [apply_post_processing]
  · intro x y hy
    rw [← hout2]
    have h := hform x y
    rw [if_pos rfl] at h
    rw [h, if_neg (by omega)]
  · intro x y hy
    rw [← hout2]
    have h := hform x y
    rw [if_pos rfl] at h
    rw [h, if_pos hy]
  · intro y hy
    unfold bandOf
    rw [Nat.div_eq_of_lt hy]
    exact Nat.min_eq_left (by omega)
  · simp [blendFactor]
  · intro i j hij hj
    unfold blendFactor
    have hcast : (0 : ℚ) < (ns : ℚ) := by
      exact_mod_cast Nat.pos_of_ne_zero hns0
    have hdiv : (i : ℚ) / (ns : ℚ) < (j : ℚ) / (ns : ℚ) :=
      (div_lt_div_right hcast).2 (by exact_mod_cast hij)
    linarith
  · unfold blendFactor
    rw [div_self (by exact_mod_cast hns0)]
    ring

/-- A 1×10 all-zero test image. -/
def testImg : Img := Img.mk 1 10 fun _ _ => 0

/-- A stand-in for the external Gaussian blur: constant-1 pixels. -/
def testBlur : Img → ℕ → Img :=
  fun im _ => Img.mk im.width im.height fun _ _ => 1

/-- The blur-fade output on `testImg`: fade height 3, three 1-row bands. -/
def testOut : Img :=
  (List.range 3).foldl (blurStep testImg (testBlur testImg 12) 3 3 1) testImg

/-- Witness for C7 on the concrete 1×10 test image: the top band blends at
factor 1 and a row below the fade zone is untouched. -/
theorem blur_fade_schedule_C7_witness :
    blendFactor 3 0 = 1 ∧ testOut.pix 0 5 = testImg.pix 0 5 := by
  have h := blur_fade_schedule_C7 testBlur (fun _ _ => 0) testImg "9:19.5"
    false testOut 3 3 1 (by with_unfolding_all decide) (by decide) (by decide)
    (by with_unfolding_all rfl)
  exact ⟨h.2.2.2.2.2.2.2.1, h.2.2.2.2.1 0 5 (by decide)⟩

end MapPoster
